/-
  Verification of the private-DAO-voting repository's client-side logic.

  The definitions below are shallow embeddings of the TypeScript sources:
  - src/client/src/voter-registry.ts   (VoterRegistry: computeRoot, getMerkleProof,
    addVoterByCommitment)
  - src/client/src/cast-vote.ts / proof.ts (computeMerkleRoot, serializeCastVote,
    nullifier PDA seed derivation)
  - src/frontend/src/services/solanaService.ts (getNullifierPda,
    buildCastVoteInstruction)
  - src/frontend/src/services/voterService.ts and the get-merkle-proof CLI and the
    demo proof service (secretToField, the simulated poseidonHash)

  JS bigints are embedded as Nat (all values occurring are nonnegative).  The
  two-input Poseidon hash used by the registry (circomlibjs) and by the frontend
  voter service (poseidon-lite) is an external library treated as a black box by
  the spec; every registry-level property below is proved for an arbitrary
  two-input function `H : Nat → Nat → Nat`, which the concrete Poseidon
  instantiates.  Array index reads `xs[i]` that may be out of range in JS
  (yielding `undefined`, coalesced by `?? 0` or guarded by explicit bounds
  checks in the source) are embedded with `List.getD _ _ 0` at exactly the
  places the source coalesces or guards.
-/
import Mathlib

/-- Scalar-field modulus of the BN254 pairing curve: the prime every circuit
input must stay strictly below (spec section 3, data model). -/
def bn254r : Nat :=
  21888242871839275222246405745257275088548364400416034343698204186575808495617

/-- TREE_DEPTH constant, 20 in every source file. -/
def TREE_DEPTH : Nat := 20

/-- One level-combining pass of the tree builder: the inner
`for (let i = 0; i < currentLevel.length; i += 2)` loop of
`VoterRegistry.computeRoot` (voter-registry.ts), pairing adjacent nodes with
`hashTwo(left, right)` where a missing right neighbour is `?? BigInt(0)`. -/
def buildLevel (H : Nat → Nat → Nat) : List Nat → List Nat
  | [] => []
  | [a] => [H a 0]
  | a :: b :: rest => H a b :: buildLevel H rest

/-- `n` repeated applications of `current = hashTwo(current, 0)`: the
zero-padding continuation loops of `computeRoot` (voter-registry.ts). -/
def zeroChain (H : Nat → Nat → Nat) : Nat → Nat → Nat
  | 0, x => x
  | n + 1, x => zeroChain H n (H x 0)

/-- Fuel-driven ceiling of log2: `ceilLog2Core fuel n` is the least `k` with
`n ≤ 2 ^ k`, provided `n ≤ fuel` (each step halves, rounding up). -/
def ceilLog2Core : Nat → Nat → Nat
  | 0, _ => 0
  | fuel + 1, n => if n ≤ 1 then 0 else 1 + ceilLog2Core fuel ((n + 1) / 2)

/-- Ceiling of log2 on positive naturals (0 for `n ≤ 1`): the exact value of
JavaScript `Math.ceil(Math.log2(Math.max(n, 1)))` for every `n ≤ 2^20` (log2
of a power of two is exact in double precision; otherwise the distance of
log2 n to the nearest integer far exceeds the rounding error). -/
def ceilLog2 (n : Nat) : Nat := ceilLog2Core n n

/-- Padding of the leaf list to the next power of two with zero leaves:
`numLeaves = Math.pow(2, Math.ceil(Math.log2(Math.max(len, 1))))` followed by
pushing `BigInt(0)` (voter-registry.ts). -/
def padLeaves (leaves : List Nat) : List Nat :=
  leaves ++ List.replicate (2 ^ ceilLog2 leaves.length - leaves.length) 0

/-- The `for (let depth = 0; depth < TREE_DEPTH; depth++)` loop of
`computeRoot` (voter-registry.ts), with `fuel` the number of remaining
iterations: build the next level; if it has exactly one node, finish by
hashing against zero for the remaining depths and return; otherwise continue.
The fuel-0 case is the post-loop `return currentLevel[0]`. -/
def rootLoop (H : Nat → Nat → Nat) : Nat → List Nat → Nat
  | 0, l => l.getD 0 0
  | fuel + 1, l =>
    let nl := buildLevel H l
    if nl.length = 1 then zeroChain H fuel (nl.getD 0 0)
    else rootLoop H fuel nl

/-- `VoterRegistry.computeRoot` (voter-registry.ts): empty registry returns the
20-fold hash-with-zero chain from zero; otherwise pad to the next power of two
and fold levels. -/
def computeRoot (H : Nat → Nat → Nat) (leaves : List Nat) : Nat :=
  if leaves.length = 0 then zeroChain H TREE_DEPTH 0
  else rootLoop H TREE_DEPTH (padLeaves leaves)

/-- The proof-gathering loop of `VoterRegistry.getMerkleProof`
(voter-registry.ts): at each level record `isRight = currentIndex % 2` and the
sibling (`0` when the sibling index is out of range), then build the next
level; when the next level has zero or one nodes, fill the remaining depths
with zero siblings and zero path bits and stop; otherwise recurse on the next
level with `currentIndex / 2`.  Returns (siblings, pathIndices). -/
def proofLoop (H : Nat → Nat → Nat) : Nat → List Nat → Nat → List Nat × List Nat
  | 0, _, _ => ([], [])
  | fuel + 1, l, idx =>
    let isRight := idx % 2
    let sibIdx := if isRight = 0 then idx + 1 else idx - 1
    let sib := if sibIdx < l.length then l.getD sibIdx 0 else 0
    let nl := buildLevel H l
    if nl.length = 0 ∨ nl.length = 1 then
      (sib :: List.replicate fuel 0, isRight :: List.replicate fuel 0)
    else
      let rest := proofLoop H fuel nl (idx / 2)
      (sib :: rest.1, isRight :: rest.2)

/-- The record returned by `VoterRegistry.getMerkleProof` (voter-registry.ts). -/
structure MerkleProof where
  root : Nat
  leaf : Nat
  siblings : List Nat
  pathIndices : List Nat
deriving DecidableEq, Repr

/-- `VoterRegistry.getMerkleProof(index)` (voter-registry.ts): throws when
`index >= this.leaves.length` (the spec's NotRegistered condition, embedded as
`Except.error`); otherwise pads the leaves and runs the proof loop, returning
the proof record together with `computeRoot()`. -/
def getMerkleProof (H : Nat → Nat → Nat) (leaves : List Nat) (index : Nat) :
    Except String MerkleProof :=
  if leaves.length ≤ index then
    Except.error "NotRegistered"
  else
    let res := proofLoop H TREE_DEPTH (padLeaves leaves) index
    Except.ok
      { root := computeRoot H leaves
        leaf := leaves.getD index 0
        siblings := res.1
        pathIndices := res.2 }

/-- `computeMerkleRoot(leaf, pathIndices, siblings)` from the cast-vote client
(client/src/proof.ts, re-exported through cast-vote.ts): fold the 20 levels,
hashing `(current, sibling)` when the path bit is 0 and `(sibling, current)`
when it is 1. -/
def computeMerkleRoot (H : Nat → Nat → Nat) (leaf : Nat)
    (pathIndices : List Nat) (siblings : List Nat) : Nat :=
  (List.range TREE_DEPTH).foldl
    (fun current i =>
      let sibling := siblings.getD i 0
      let isRight := pathIndices.getD i 0
      if isRight = 0 then H current sibling else H sibling current)
    leaf

/-- Result of `VoterRegistry.addVoterByCommitment` (voter-registry.ts): the
returned `{ leaf, index }` pair together with the registry's leaf list after
the call. -/
structure AddResult where
  leaf : Nat
  index : Nat
  leaves : List Nat
deriving DecidableEq, Repr

/-- JavaScript `Array.findIndex` specialised to the equality predicate used in
`addVoterByCommitment`: index of the first element equal to `commitment`,
`none` for the source's `-1`. -/
def findIndexEq (commitment : Nat) : List Nat → Option Nat
  | [] => none
  | l :: rest =>
    if l = commitment then some 0
    else (findIndexEq commitment rest).map (· + 1)

/-- `VoterRegistry.addVoterByCommitment(commitment)` (voter-registry.ts):
`findIndex` on the leaf list; if present return the existing index and leave
the list unchanged, otherwise append at index `leaves.length`. -/
def addVoterByCommitment (leaves : List Nat) (commitment : Nat) : AddResult :=
  match findIndexEq commitment leaves with
  | some existingIndex => { leaf := commitment, index := existingIndex, leaves := leaves }
  | none => { leaf := commitment, index := leaves.length, leaves := leaves ++ [commitment] }

/-- ASCII bytes of the string "nullifier", the constant first PDA seed. -/
def nullifierSeedBytes : List Nat := [110, 117, 108, 108, 105, 102, 105, 101, 114]

/-- Seed list of the nullifier PDA derived in the CLI vote client
(cast-vote.ts): `[Buffer.from("nullifier"), proposalPda.toBuffer(),
Buffer.from(nullifierBytes)]`. -/
def cliNullifierSeeds (proposalPda : List Nat) (nullifierBytes : List Nat) :
    List (List Nat) :=
  [nullifierSeedBytes, proposalPda, nullifierBytes]

/-- Seed list used by `getNullifierPda` in the frontend
(solanaService.ts): `[Buffer.from('nullifier'), Buffer.from(nullifierBytes)]`
— note the proposal is absent. -/
def getNullifierPdaSeeds (nullifierBytes : List Nat) : List (List Nat) :=
  [nullifierSeedBytes, nullifierBytes]

/-- Nullifier-PDA seed list as derived inside `buildCastVoteInstruction`
(solanaService.ts), which receives `proposalId` but derives the nullifier PDA
by calling `getNullifierPda(nullifierBytes)` only. -/
def buildCastVoteNullifierSeeds (_proposalId : Nat) (nullifierBytes : List Nat) :
    List (List Nat) :=
  getNullifierPdaSeeds nullifierBytes

/-- Little-endian 4-byte encoding (`writeUInt32LE`). -/
def u32le (n : Nat) : List Nat :=
  [n % 256, n / 256 % 256, n / 256 ^ 2 % 256, n / 256 ^ 3 % 256]

/-- Little-endian 8-byte encoding (`new BN(x).toArrayLike(Buffer, 'le', 8)`). -/
def u64le (n : Nat) : List Nat :=
  (List.range 8).map (fun i => n / 256 ^ i % 256)

/-- The CLI's cast_vote discriminator (cast-vote.ts):
sha256("global:cast_vote")[0..8] = 14 d4 0f bd 45 b4 45 97. -/
def cliCastVoteDiscriminator : List Nat := [0x14, 0xd4, 0x0f, 0xbd, 0x45, 0xb4, 0x45, 0x97]

/-- The frontend's CAST_VOTE_DISCRIMINATOR (solanaService.ts):
Buffer.from([21, 45, 147, 165, 239, 63, 155, 127]). -/
def frontendCastVoteDiscriminator : List Nat := [21, 45, 147, 165, 239, 63, 155, 127]

/-- `serializeCastVote(nullifier, vote, proofData)` (cast-vote.ts):
discriminator, 32-byte nullifier, u8 vote, then `proofData` as a Borsh
`Vec<u8>` (u32 little-endian length followed by the bytes). -/
def serializeCastVote (nullifier : List Nat) (vote : Nat) (proofData : List Nat) :
    List Nat :=
  cliCastVoteDiscriminator ++ nullifier ++ [vote] ++ u32le proofData.length ++ proofData

/-- Instruction data built by `buildCastVoteInstruction` (solanaService.ts):
`Buffer.concat([CAST_VOTE_DISCRIMINATOR, u64le(proposalId), [vote],
nullifierBytes, proofBytes])` — no length framing on the proof bytes. -/
def buildCastVoteInstructionData (proposalId : Nat) (vote : Nat)
    (nullifierBytes : List Nat) (proofBytes : List Nat) : List Nat :=
  frontendCastVoteDiscriminator ++ u64le proposalId ++ [vote] ++ nullifierBytes ++ proofBytes

/-- UTF-16 code of the lowercase hex digit for `d < 16`, as produced by
JavaScript `BigInt.toString(16)` and read back by `charCodeAt`. -/
def hexDigitCode (d : Nat) : Nat := if d < 10 then 48 + d else 87 + d

/-- Fuel-driven big-endian hex digit expansion of `n` (char codes of
`n.toString(16)`); `fuel` at least the digit count. -/
def hexCodesCore : Nat → Nat → List Nat → List Nat
  | 0, _, acc => acc
  | fuel + 1, n, acc =>
    let d := hexDigitCode (n % 16)
    if n < 16 then d :: acc else hexCodesCore fuel (n / 16) (d :: acc)

/-- Char codes of `n.toString(16)` in JavaScript: lowercase hex, no leading
zeros, "0" for zero. -/
def hexCodes (n : Nat) : List Nat := hexCodesCore (n + 1) n []

/-- The `poseidonHash` of the demo proof service (src/unnamed/part_003): NOT a
real Poseidon — by its own comment a "Simple hash simulation for demo".  It
concatenates the lowercase hex expansions of the two inputs and runs the
rolling hash `h = (h * 31 + charCode) % 2^254` over the characters. -/
def poseidonHashSim (a b : Nat) : Nat :=
  (hexCodes a ++ hexCodes b).foldl (fun h c => (h * 31 + c) % 2 ^ 254) 0

/-- `secretToField(secret)` as written identically in the get-merkle-proof CLI
(src/unnamed/part_018), the frontend voter service (voterService.ts) and the
frontend proof services: the rolling hash `h = (h * 256 + charCodeAt(i)) %
2^254` over the secret's UTF-16 code units, embedded here over the list of
code units. -/
def secretToField (codes : List Nat) : Nat :=
  codes.foldl (fun h c => (h * 256 + c) % 2 ^ 254) 0

/-- Concrete two-input hash standing in for the Poseidon black box in witness
evaluations. -/
def demoHash (a b : Nat) : Nat := 2 * a + 3 * b + 1

/-- Structural form of the cast-vote recombination loop: consume the path-bit
and sibling lists head first, combining exactly as `computeMerkleRoot` does.
Proof infrastructure relating `computeMerkleRoot` to `proofLoop`. -/
def foldPath (H : Nat → Nat → Nat) : Nat → List Nat → List Nat → Nat
  | cur, [], _ => cur
  | cur, _ :: _, [] => cur
  | cur, b :: bs, s :: ss => foldPath H (if b = 0 then H cur s else H s cur) bs ss

/-! Helper lemmas about the level-building and proof-gathering loops. -/

theorem buildLevel_length (H : Nat → Nat → Nat) :
    ∀ l : List Nat, (buildLevel H l).length = (l.length + 1) / 2
  | [] => rfl
  | [a] => by simp [buildLevel]
  | a :: b :: rest => by
    simp only [buildLevel, List.length_cons, buildLevel_length H rest]
    omega

theorem buildLevel_getD (H : Nat → Nat → Nat) :
    ∀ (l : List Nat) (j : Nat), 2 * j < l.length →
      (buildLevel H l).getD j 0 = H (l.getD (2 * j) 0) (l.getD (2 * j + 1) 0)
  | [], j, h => by simp at h
  | [a], j, h => by
    have hj : j = 0 := by simp at h; omega
    subst hj
    simp [buildLevel]
  | a :: b :: rest, 0, h => by simp [buildLevel]
  | a :: b :: rest, j + 1, h => by
    have hlt : 2 * j < rest.length := by simp at h; omega
    have ih := buildLevel_getD H rest j hlt
    have e1 : 2 * (j + 1) = 2 * j + 1 + 1 := by ring
    have e2 : 2 * (j + 1) + 1 = 2 * j + 1 + 1 + 1 := by ring
    simp only [buildLevel, List.getD_cons_succ, e1, e2]
    exact ih

theorem proofLoop_length (H : Nat → Nat → Nat) :
    ∀ (fuel : Nat) (l : List Nat) (idx : Nat),
      (proofLoop H fuel l idx).1.length = fuel ∧ (proofLoop H fuel l idx).2.length = fuel
  | 0, _, _ => ⟨rfl, rfl⟩
  | fuel + 1, l, idx => by
    have ih := proofLoop_length H fuel (buildLevel H l) (idx / 2)
    simp only [proofLoop]
    split
    · simp
    · simp [ih.1, ih.2]

theorem replicate_getD_zero : ∀ (n j : Nat), (List.replicate n (0 : Nat)).getD j 0 = 0
  | 0, _ => by simp
  | n + 1, 0 => by simp
  | n + 1, j + 1 => by
    simp only [List.replicate_succ, List.getD_cons_succ]
    exact replicate_getD_zero n j

theorem foldPath_replicate_zero (H : Nat → Nat → Nat) :
    ∀ (n : Nat) (cur : Nat),
      foldPath H cur (List.replicate n 0) (List.replicate n 0) = zeroChain H n cur
  | 0, _ => rfl
  | n + 1, cur => by
    simp only [List.replicate_succ, foldPath, zeroChain, if_pos rfl]
    exact foldPath_replicate_zero H n (H cur 0)

theorem zeroChain_eq_iterate (H : Nat → Nat → Nat) :
    ∀ (n x : Nat), zeroChain H n x = (fun y => H y 0)^[n] x
  | 0, _ => rfl
  | n + 1, x => by
    rw [zeroChain, Function.iterate_succ_apply, zeroChain_eq_iterate H n]

theorem ceilLog2Core_le_pow :
    ∀ (fuel n : Nat), n ≤ fuel → n ≤ 2 ^ ceilLog2Core fuel n
  | 0, n, h => by simp only [ceilLog2Core, pow_zero]; omega
  | fuel + 1, n, h => by
    by_cases hn : n ≤ 1
    · simp only [ceilLog2Core, if_pos hn, pow_zero]; omega
    · have hrec : (n + 1) / 2 ≤ fuel := by omega
      have ih := ceilLog2Core_le_pow fuel ((n + 1) / 2) hrec
      simp only [ceilLog2Core, if_neg hn]
      rw [pow_add, pow_one]
      omega

theorem ceilLog2Core_le :
    ∀ (fuel n m : Nat), n ≤ 2 ^ m → ceilLog2Core fuel n ≤ m
  | 0, _, _, _ => Nat.zero_le _
  | fuel + 1, n, m, h => by
    by_cases hn : n ≤ 1
    · simp [ceilLog2Core, hn]
    · match m with
      | 0 => simp at h; omega
      | m' + 1 =>
        have hhalf : (n + 1) / 2 ≤ 2 ^ m' := by
          rw [pow_succ] at h
          omega
        have ih := ceilLog2Core_le fuel ((n + 1) / 2) m' hhalf
        simp only [ceilLog2Core, if_neg hn]
        omega

theorem le_pow_ceilLog2 (n : Nat) : n ≤ 2 ^ ceilLog2 n :=
  ceilLog2Core_le_pow n n (Nat.le_refl n)

theorem ceilLog2_le {n m : Nat} (h : n ≤ 2 ^ m) : ceilLog2 n ≤ m :=
  ceilLog2Core_le n n m h

theorem padLeaves_length (leaves : List Nat) :
    (padLeaves leaves).length = 2 ^ ceilLog2 leaves.length := by
  have := le_pow_ceilLog2 leaves.length
  simp only [padLeaves, List.length_append, List.length_replicate]
  omega

theorem foldl_range'_eq_foldPath (H : Nat → Nat → Nat) (pis sibs : List Nat) :
    ∀ (n k cur : Nat), k + n ≤ pis.length → k + n ≤ sibs.length →
      (List.range' k n).foldl
        (fun current i =>
          let sibling := sibs.getD i 0
          let isRight := pis.getD i 0
          if isRight = 0 then H current sibling else H sibling current) cur
      = foldPath H cur ((pis.drop k).take n) ((sibs.drop k).take n)
  | 0, k, cur, _, _ => by simp [foldPath]
  | n + 1, k, cur, h1, h2 => by
    have hkp : k < pis.length := by omega
    have hks : k < sibs.length := by omega
    have hdp : pis.drop k = pis[k] :: pis.drop (k + 1) := List.drop_eq_getElem_cons hkp
    have hds : sibs.drop k = sibs[k] :: sibs.drop (k + 1) := List.drop_eq_getElem_cons hks
    have hr : List.range' k (n + 1) = k :: List.range' (k + 1) n := rfl
    have ih := foldl_range'_eq_foldPath H pis sibs n (k + 1)
      (if pis[k] = 0 then H cur sibs[k] else H sibs[k] cur) (by omega) (by omega)
    rw [hr, hdp, hds, List.foldl_cons, List.take_succ_cons, List.take_succ_cons, foldPath]
    simpa [List.getD, List.getElem?_eq_getElem hkp, List.getElem?_eq_getElem hks] using ih

theorem computeMerkleRoot_eq_foldPath (H : Nat → Nat → Nat) (leaf : Nat)
    (pis sibs : List Nat) (h1 : pis.length = TREE_DEPTH) (h2 : sibs.length = TREE_DEPTH) :
    computeMerkleRoot H leaf pis sibs = foldPath H leaf pis sibs := by
  have := foldl_range'_eq_foldPath H pis sibs TREE_DEPTH 0 leaf
    (by omega) (by omega)
  rw [computeMerkleRoot, List.range_eq_range', this, List.drop_zero, List.drop_zero,
    List.take_of_length_le (by omega), List.take_of_length_le (by omega)]

theorem rootLoop_succ_one (H : Nat → Nat → Nat) (fuel : Nat) (l : List Nat)
    (h : (buildLevel H l).length = 1) :
    rootLoop H (fuel + 1) l = zeroChain H fuel ((buildLevel H l).getD 0 0) := by
  simp only [rootLoop, if_pos h]

theorem rootLoop_succ_rec (H : Nat → Nat → Nat) (fuel : Nat) (l : List Nat)
    (h : (buildLevel H l).length ≠ 1) :
    rootLoop H (fuel + 1) l = rootLoop H fuel (buildLevel H l) := by
  simp only [rootLoop, if_neg h]

theorem proofLoop_succ_fill (H : Nat → Nat → Nat) (fuel : Nat) (l : List Nat) (idx : Nat)
    (h : (buildLevel H l).length = 0 ∨ (buildLevel H l).length = 1) :
    proofLoop H (fuel + 1) l idx =
      ((if (if idx % 2 = 0 then idx + 1 else idx - 1) < l.length
          then l.getD (if idx % 2 = 0 then idx + 1 else idx - 1) 0 else 0)
          :: List.replicate fuel 0,
        idx % 2 :: List.replicate fuel 0) := by
  simp only [proofLoop, if_pos h]

theorem proofLoop_succ_rec (H : Nat → Nat → Nat) (fuel : Nat) (l : List Nat) (idx : Nat)
    (h : ¬((buildLevel H l).length = 0 ∨ (buildLevel H l).length = 1)) :
    proofLoop H (fuel + 1) l idx =
      ((if (if idx % 2 = 0 then idx + 1 else idx - 1) < l.length
          then l.getD (if idx % 2 = 0 then idx + 1 else idx - 1) 0 else 0)
          :: (proofLoop H fuel (buildLevel H l) (idx / 2)).1,
        idx % 2 :: (proofLoop H fuel (buildLevel H l) (idx / 2)).2) := by
  simp only [proofLoop, if_neg h]

theorem proofLoop_recombines (H : Nat → Nat → Nat) :
    ∀ (fuel k : Nat) (l : List Nat) (idx : Nat),
      l.length = 2 ^ k → k ≤ fuel → idx < l.length →
      foldPath H (l.getD idx 0) (proofLoop H fuel l idx).2 (proofLoop H fuel l idx).1
        = rootLoop H fuel l
  | 0, k, l, idx, hl, hk, hidx => by
    have hk0 : k = 0 := Nat.le_zero.mp hk
    subst hk0
    simp only [pow_zero] at hl
    have hidx0 : idx = 0 := by omega
    subst hidx0
    simp [proofLoop, foldPath, rootLoop]
  | fuel + 1, 0, l, idx, hl, hk, hidx => by
    simp only [pow_zero] at hl
    obtain ⟨a, rfl⟩ := List.length_eq_one.mp hl
    have hidx0 : idx = 0 := by simp at hidx; omega
    subst hidx0
    rw [proofLoop_succ_fill H fuel [a] 0 (by simp [buildLevel])]
    rw [rootLoop_succ_one H fuel [a] (by simp [buildLevel])]
    simp only [buildLevel]
    simp [foldPath, foldPath_replicate_zero]
  | fuel + 1, 1, l, idx, hl, hk, hidx => by
    simp only [pow_one] at hl
    obtain ⟨a, b, rfl⟩ := List.length_eq_two.mp hl
    rw [proofLoop_succ_fill H fuel [a, b] idx (by simp [buildLevel])]
    rw [rootLoop_succ_one H fuel [a, b] (by simp [buildLevel])]
    simp only [buildLevel]
    have hidx2 : idx = 0 ∨ idx = 1 := by simp at hidx; omega
    rcases hidx2 with rfl | rfl
    · simp [foldPath, foldPath_replicate_zero]
    · simp [foldPath, foldPath_replicate_zero]
  | fuel + 1, k + 2, l, idx, hl, hk, hidx => by
    have h2 : 2 ^ (k + 2) = 2 * 2 ^ (k + 1) := by ring
    have h1 : (2 : Nat) ≤ 2 ^ (k + 1) := by
      calc (2 : Nat) = 2 ^ 1 := rfl
        _ ≤ 2 ^ (k + 1) := Nat.pow_le_pow_right (by omega) (by omega)
    have hnl : (buildLevel H l).length = 2 ^ (k + 1) := by
      rw [buildLevel_length, hl]; omega
    have hcond : ¬((buildLevel H l).length = 0 ∨ (buildLevel H l).length = 1) := by
      rw [hnl]; omega
    have hlen : idx < 2 ^ (k + 2) := by rw [hl] at hidx; exact hidx
    have hj : 2 * (idx / 2) < l.length := by rw [hl]; omega
    have hbl := buildLevel_getD H l (idx / 2) hj
    have hhalf : idx / 2 < (buildLevel H l).length := by rw [hnl]; omega
    have ih := proofLoop_recombines H fuel (k + 1) (buildLevel H l) (idx / 2) hnl
      (by omega) hhalf
    rw [proofLoop_succ_rec H fuel l idx hcond,
      rootLoop_succ_rec H fuel l (by rw [hnl]; omega)]
    simp only [foldPath]
    rcases Nat.mod_two_eq_zero_or_one idx with hpar | hpar
    · have he : 2 * (idx / 2) = idx := by omega
      have hs1 : idx + 1 < l.length := by rw [hl]; omega
      simp only [hpar, if_pos rfl, reduceIte, if_pos hs1]
      rw [show H (l.getD idx 0) (l.getD (idx + 1) 0)
            = (buildLevel H l).getD (idx / 2) 0 by rw [hbl, he]]
      exact ih
    · have ho1 : 2 * (idx / 2) + 1 = idx := by omega
      have ho2 : 2 * (idx / 2) = idx - 1 := by omega
      have hs1 : idx - 1 < l.length := by omega
      simp only [hpar, if_neg (show ¬(1 : Nat) = 0 by decide), if_pos hs1]
      rw [show H (l.getD (idx - 1) 0) (l.getD idx 0)
            = (buildLevel H l).getD (idx / 2) 0 by rw [hbl, ho1, ho2]]
      exact ih

theorem proofLoop_pathIndices (H : Nat → Nat → Nat) :
    ∀ (fuel k : Nat) (l : List Nat) (idx : Nat),
      l.length = 2 ^ k → k ≤ fuel → idx < l.length →
      ∀ j, j < fuel → (proofLoop H fuel l idx).2.getD j 0 = idx / 2 ^ j % 2
  | 0, _, _, _, _, _, _ => fun j hj => absurd hj (Nat.not_lt_zero j)
  | fuel + 1, 0, l, idx, hl, _, hidx => by
    simp only [pow_zero] at hl
    obtain ⟨a, rfl⟩ := List.length_eq_one.mp hl
    have hidx0 : idx = 0 := by simp at hidx; omega
    subst hidx0
    rw [proofLoop_succ_fill H fuel [a] 0 (by simp [buildLevel])]
    intro j _
    match j with
    | 0 => simp
    | j + 1 =>
      simp [List.getD_cons_succ, replicate_getD_zero, Nat.zero_div]
  | fuel + 1, 1, l, idx, hl, _, hidx => by
    simp only [pow_one] at hl
    obtain ⟨a, b, rfl⟩ := List.length_eq_two.mp hl
    have hidx2 : idx < 2 := by simpa using hidx
    rw [proofLoop_succ_fill H fuel [a, b] idx (by simp [buildLevel])]
    intro j _
    match j with
    | 0 => simp
    | j + 1 =>
      have hpow : (2 : Nat) ≤ 2 ^ (j + 1) := by
        calc (2 : Nat) = 2 ^ 1 := rfl
          _ ≤ 2 ^ (j + 1) := Nat.pow_le_pow_right (by omega) (by omega)
      have hdiv : idx / 2 ^ (j + 1) = 0 := Nat.div_eq_of_lt (by omega)
      simp [List.getD_cons_succ, replicate_getD_zero, hdiv]
  | fuel + 1, k + 2, l, idx, hl, hk, hidx => by
    have h2 : 2 ^ (k + 2) = 2 * 2 ^ (k + 1) := by ring
    have hnl : (buildLevel H l).length = 2 ^ (k + 1) := by
      rw [buildLevel_length, hl]; omega
    have h1 : (2 : Nat) ≤ 2 ^ (k + 1) := by
      calc (2 : Nat) = 2 ^ 1 := rfl
        _ ≤ 2 ^ (k + 1) := Nat.pow_le_pow_right (by omega) (by omega)
    have hcond : ¬((buildLevel H l).length = 0 ∨ (buildLevel H l).length = 1) := by
      rw [hnl]; omega
    have hlen : idx < 2 ^ (k + 2) := by rw [hl] at hidx; exact hidx
    have hhalf : idx / 2 < (buildLevel H l).length := by rw [hnl]; omega
    have ih := proofLoop_pathIndices H fuel (k + 1) (buildLevel H l) (idx / 2) hnl
      (by omega) hhalf
    rw [proofLoop_succ_rec H fuel l idx hcond]
    intro j hj
    match j with
    | 0 => simp
    | j + 1 =>
      simp only [List.getD_cons_succ]
      rw [ih j (by omega), Nat.div_div_eq_div_mul,
        show (2 : Nat) * 2 ^ j = 2 ^ (j + 1) by rw [pow_succ]; ring]

theorem proofLoop_bits (H : Nat → Nat → Nat) :
    ∀ (fuel : Nat) (l : List Nat) (idx : Nat),
      ∀ b ∈ (proofLoop H fuel l idx).2, b = 0 ∨ b = 1
  | 0, l, idx => by simp [proofLoop]
  | fuel + 1, l, idx => by
    by_cases h : (buildLevel H l).length = 0 ∨ (buildLevel H l).length = 1
    · rw [proofLoop_succ_fill H fuel l idx h]
      intro b hb
      rcases List.mem_cons.mp hb with rfl | hb
      · omega
      · have := List.eq_of_mem_replicate hb
        omega
    · rw [proofLoop_succ_rec H fuel l idx h]
      intro b hb
      rcases List.mem_cons.mp hb with rfl | hb
      · omega
      · exact proofLoop_bits H fuel (buildLevel H l) (idx / 2) b hb

theorem findIndexEq_of_not_mem (commitment : Nat) :
    ∀ l : List Nat, commitment ∉ l → findIndexEq commitment l = none
  | [], _ => rfl
  | a :: rest, h => by
    have ha : ¬ a = commitment := fun e => h (e ▸ List.mem_cons_self a rest)
    rw [findIndexEq, if_neg ha,
      findIndexEq_of_not_mem commitment rest (fun hm => h (List.mem_cons_of_mem a hm))]
    rfl

theorem findIndexEq_isSome_of_mem (commitment : Nat) :
    ∀ l : List Nat, commitment ∈ l → (findIndexEq commitment l).isSome = true
  | [], h => absurd h (List.not_mem_nil commitment)
  | a :: rest, h => by
    by_cases ha : a = commitment
    · simp [findIndexEq, ha]
    · have hrest : commitment ∈ rest := by
        rcases List.mem_cons.mp h with h1 | h1
        · exact absurd h1.symm ha
        · exact h1
      have := findIndexEq_isSome_of_mem commitment rest hrest
      simp [findIndexEq, ha, this]

theorem findIndexEq_some_spec (commitment : Nat) :
    ∀ (l : List Nat) (i : Nat), findIndexEq commitment l = some i →
      i < l.length ∧ l.getD i 0 = commitment ∧ ∀ j, j < i → l.getD j 0 ≠ commitment
  | [], i, h => by simp [findIndexEq] at h
  | a :: rest, i, h => by
    by_cases ha : a = commitment
    · rw [findIndexEq, if_pos ha] at h
      have := Option.some.inj h
      subst this
      exact ⟨by simp, by simpa using ha, fun j hj => absurd hj (by omega)⟩
    · rw [findIndexEq, if_neg ha] at h
      rcases Option.map_eq_some'.mp h with ⟨i', hi', rfl⟩
      obtain ⟨h1, h2, h3⟩ := findIndexEq_some_spec commitment rest i' hi'
      refine ⟨by simp; omega, by simpa using h2, ?_⟩
      intro j hj
      match j with
      | 0 => simpa using ha
      | j + 1 =>
        simp only [List.getD_cons_succ]
        exact h3 j (by omega)

/-! Claim theorems. -/

/-- C1: for every registry holding between 1 and 2^20 inserted commitments and
every index i strictly below the number of inserted leaves, recombining the
leaf at index i with the siblings and pathIndices returned by
getMerkleProof(i) — at each of the 20 levels computing hashTwo(current,
sibling) when the path bit is 0 and hashTwo(sibling, current) when it is 1,
as computeMerkleRoot does — yields exactly the value returned by
computeRoot() on the same registry, for every two-input hash H. -/
theorem merkle_inclusion_roundtrip (H : Nat → Nat → Nat) (leaves : List Nat) (i : Nat)
    (h1 : 1 ≤ leaves.length) (h2 : leaves.length ≤ 2 ^ 20) (hi : i < leaves.length)
    (p : MerkleProof) (hp : getMerkleProof H leaves i = Except.ok p) :
    computeMerkleRoot H p.leaf p.pathIndices p.siblings = computeRoot H leaves := by
  have heq : getMerkleProof H leaves i =
      Except.ok ⟨computeRoot H leaves, leaves.getD i 0,
        (proofLoop H TREE_DEPTH (padLeaves leaves) i).1,
        (proofLoop H TREE_DEPTH (padLeaves leaves) i).2⟩ := by
    rw [getMerkleProof, if_neg (by omega)]
  rw [heq] at hp
  have hp' : _ = p := Except.ok.inj hp
  subst hp'
  have hplen : (padLeaves leaves).length = 2 ^ ceilLog2 leaves.length :=
    padLeaves_length leaves
  have hkle : ceilLog2 leaves.length ≤ 20 := ceilLog2_le h2
  have hle : leaves.length ≤ 2 ^ ceilLog2 leaves.length := le_pow_ceilLog2 _
  have hi' : i < (padLeaves leaves).length := by rw [hplen]; omega
  have hlen1 : (proofLoop H TREE_DEPTH (padLeaves leaves) i).1.length = TREE_DEPTH :=
    (proofLoop_length H TREE_DEPTH (padLeaves leaves) i).1
  have hlen2 : (proofLoop H TREE_DEPTH (padLeaves leaves) i).2.length = TREE_DEPTH :=
    (proofLoop_length H TREE_DEPTH (padLeaves leaves) i).2
  have hgetD : (padLeaves leaves).getD i 0 = leaves.getD i 0 := by
    rw [padLeaves]
    exact List.getD_append leaves _ 0 i hi
  have hmain := proofLoop_recombines H TREE_DEPTH (ceilLog2 leaves.length)
    (padLeaves leaves) i hplen hkle hi'
  show computeMerkleRoot H (leaves.getD i 0)
      (proofLoop H TREE_DEPTH (padLeaves leaves) i).2
      (proofLoop H TREE_DEPTH (padLeaves leaves) i).1 = computeRoot H leaves
  rw [computeMerkleRoot_eq_foldPath H _ _ _ hlen2 hlen1, ← hgetD, hmain,
    computeRoot, if_neg (by omega)]

/-- Concrete proof record for the inclusion round-trip witness: the value of
getMerkleProof demoHash [5, 7, 9] 1. -/
def c1WitnessProof : MerkleProof :=
  ⟨32243711, 7, [5, 19] ++ List.replicate 18 0, [1] ++ List.replicate 19 0⟩

/-- Witness for C1 at the concrete registry [5, 7, 9] (a non-power-of-two
size) and the interior index 1, with the concrete hash demoHash. -/
theorem merkle_inclusion_roundtrip_witness :
    computeMerkleRoot demoHash c1WitnessProof.leaf c1WitnessProof.pathIndices
      c1WitnessProof.siblings = computeRoot demoHash [5, 7, 9] :=
  merkle_inclusion_roundtrip demoHash [5, 7, 9] 1 (by decide) (by decide) (by decide)
    c1WitnessProof (by rfl)

/-- C10: for every registry with n inserted leaves (1 ≤ n ≤ 2^20) and every
index i < n, the pathIndices array returned by getMerkleProof(i) encodes the
binary representation of i: for every level lvl < 20, entry lvl equals bit
lvl of i, i.e. (i >> lvl) & 1 = i / 2^lvl % 2; all entries above the height
of the padded subtree are the zero fill, which coincides with those bits of
i. -/
theorem pathIndices_encode_binary (H : Nat → Nat → Nat) (leaves : List Nat) (i : Nat)
    (_h1 : 1 ≤ leaves.length) (h2 : leaves.length ≤ 2 ^ 20) (hi : i < leaves.length)
    (p : MerkleProof) (hp : getMerkleProof H leaves i = Except.ok p) :
    ∀ lvl, lvl < TREE_DEPTH → p.pathIndices.getD lvl 0 = i / 2 ^ lvl % 2 := by
  have heq : getMerkleProof H leaves i =
      Except.ok ⟨computeRoot H leaves, leaves.getD i 0,
        (proofLoop H TREE_DEPTH (padLeaves leaves) i).1,
        (proofLoop H TREE_DEPTH (padLeaves leaves) i).2⟩ := by
    rw [getMerkleProof, if_neg (by omega)]
  rw [heq] at hp
  have hp' : _ = p := Except.ok.inj hp
  subst hp'
  have hplen : (padLeaves leaves).length = 2 ^ ceilLog2 leaves.length :=
    padLeaves_length leaves
  have hkle : ceilLog2 leaves.length ≤ 20 := ceilLog2_le h2
  have hle : leaves.length ≤ 2 ^ ceilLog2 leaves.length := le_pow_ceilLog2 _
  have hi' : i < (padLeaves leaves).length := by rw [hplen]; omega
  intro lvl hlvl
  exact proofLoop_pathIndices H TREE_DEPTH (ceilLog2 leaves.length)
    (padLeaves leaves) i hplen hkle hi' lvl hlvl

/-- Concrete proof record for the path-index witness: the value of
getMerkleProof demoHash [5, 7, 9] 2. -/
def c10WitnessProof : MerkleProof :=
  ⟨32243711, 9, [0, 32] ++ List.replicate 18 0, [0, 1] ++ List.replicate 18 0⟩

/-- Witness for C10 at the registry [5, 7, 9], index 2 (binary 10): level-1
path bit equals bit 1 of the index. -/
theorem pathIndices_encode_binary_witness :
    c10WitnessProof.pathIndices.getD 1 0 = 2 / 2 ^ 1 % 2 :=
  pathIndices_encode_binary demoHash [5, 7, 9] 2 (by decide) (by decide) (by decide)
    c10WitnessProof (by rfl) 1 (by decide)

/-- C7: getMerkleProof(index) fails with the NotRegistered condition exactly
when index is at least the number of inserted commitments; for every index
strictly below that count it succeeds and the returned proof carries exactly
TREE_DEPTH = 20 sibling elements and TREE_DEPTH = 20 path-index entries, each
entry being 0 or 1. -/
theorem getMerkleProof_shape (H : Nat → Nat → Nat) (leaves : List Nat) (index : Nat) :
    ((getMerkleProof H leaves index = Except.error "NotRegistered") ↔
      leaves.length ≤ index) ∧
    (∀ p, getMerkleProof H leaves index = Except.ok p →
      p.siblings.length = TREE_DEPTH ∧ p.pathIndices.length = TREE_DEPTH ∧
      ∀ b ∈ p.pathIndices, b = 0 ∨ b = 1) := by
  constructor
  · constructor
    · intro h
      by_contra hlt
      rw [getMerkleProof, if_neg hlt] at h
      cases h
    · intro h
      rw [getMerkleProof, if_pos h]
  · intro p hp
    by_cases hidx : leaves.length ≤ index
    · rw [getMerkleProof, if_pos hidx] at hp
      cases hp
    · have heq : getMerkleProof H leaves index =
          Except.ok ⟨computeRoot H leaves, leaves.getD index 0,
            (proofLoop H TREE_DEPTH (padLeaves leaves) index).1,
            (proofLoop H TREE_DEPTH (padLeaves leaves) index).2⟩ := by
        rw [getMerkleProof, if_neg hidx]
      rw [heq] at hp
      have hp' : _ = p := Except.ok.inj hp
      subst hp'
      exact ⟨(proofLoop_length H TREE_DEPTH (padLeaves leaves) index).1,
        (proofLoop_length H TREE_DEPTH (padLeaves leaves) index).2,
        proofLoop_bits H TREE_DEPTH (padLeaves leaves) index⟩

/-- Concrete proof record for the shape witness: the value of
getMerkleProof demoHash [5, 7] 1. -/
def c7WitnessProof : MerkleProof :=
  ⟨17301503, 7, [5] ++ List.replicate 19 0, [1] ++ List.replicate 19 0⟩

/-- Witness for C7: index 5 on a 2-voter registry fails with NotRegistered,
and index 1 succeeds with 20 siblings and 20 path bits. -/
theorem getMerkleProof_shape_witness :
    getMerkleProof demoHash [5, 7] 5 = Except.error "NotRegistered" ∧
    c7WitnessProof.siblings.length = TREE_DEPTH ∧
    c7WitnessProof.pathIndices.length = TREE_DEPTH :=
  ⟨(getMerkleProof_shape demoHash [5, 7] 5).1.mpr (by decide),
    ((getMerkleProof_shape demoHash [5, 7] 1).2 c7WitnessProof (by rfl)).1,
    ((getMerkleProof_shape demoHash [5, 7] 1).2 c7WitnessProof (by rfl)).2.1⟩

/-- C6: registration is idempotent per commitment.  With the commitment
already present (by value equality), addVoterByCommitment returns the index
of its first (original) occurrence and leaves the ordered leaf list — and
hence computeRoot() — unchanged; with the commitment absent it appends at
index equal to the previous leaf count and returns that index. -/
theorem addVoter_idempotent (H : Nat → Nat → Nat) (leaves : List Nat) (commitment : Nat) :
    (commitment ∈ leaves →
      (addVoterByCommitment leaves commitment).leaves = leaves ∧
      computeRoot H (addVoterByCommitment leaves commitment).leaves
        = computeRoot H leaves ∧
      (addVoterByCommitment leaves commitment).leaf = commitment ∧
      (addVoterByCommitment leaves commitment).index < leaves.length ∧
      leaves.getD (addVoterByCommitment leaves commitment).index 0 = commitment ∧
      (∀ j, j < (addVoterByCommitment leaves commitment).index →
        leaves.getD j 0 ≠ commitment)) ∧
    (commitment ∉ leaves →
      (addVoterByCommitment leaves commitment).index = leaves.length ∧
      (addVoterByCommitment leaves commitment).leaf = commitment ∧
      (addVoterByCommitment leaves commitment).leaves = leaves ++ [commitment]) := by
  constructor
  · intro hmem
    have hsome := findIndexEq_isSome_of_mem commitment leaves hmem
    obtain ⟨i, hi⟩ := Option.isSome_iff_exists.mp hsome
    obtain ⟨hlt, hget, hfirst⟩ := findIndexEq_some_spec commitment leaves i hi
    have hunfold : addVoterByCommitment leaves commitment = ⟨commitment, i, leaves⟩ := by
      unfold addVoterByCommitment
      rw [hi]
    rw [hunfold]
    exact ⟨rfl, rfl, rfl, hlt, hget, hfirst⟩
  · intro hnm
    have hnone := findIndexEq_of_not_mem commitment leaves hnm
    have hunfold : addVoterByCommitment leaves commitment
        = ⟨commitment, leaves.length, leaves ++ [commitment]⟩ := by
      unfold addVoterByCommitment
      rw [hnone]
    rw [hunfold]
    exact ⟨rfl, rfl, rfl⟩

/-- Witness for C6: re-adding 7 to [5, 7] is a no-op returning index 1;
adding 7 to [5, 9] appends it at index 2. -/
theorem addVoter_idempotent_witness :
    (addVoterByCommitment [5, 7] 7).leaves = [5, 7] ∧
    computeRoot demoHash (addVoterByCommitment [5, 7] 7).leaves
      = computeRoot demoHash [5, 7] ∧
    (addVoterByCommitment [5, 7] 7).index < 2 ∧
    (addVoterByCommitment [5, 9] 7).index = 2 ∧
    (addVoterByCommitment [5, 9] 7).leaves = [5, 9] ++ [7] := by
  have hmem := (addVoter_idempotent demoHash [5, 7] 7).1 (by decide)
  have hnm := (addVoter_idempotent demoHash [5, 9] 7).2 (by decide)
  exact ⟨hmem.1, hmem.2.1, hmem.2.2.2.1, hnm.1, hnm.2.2⟩

/-- C8: on a registry with zero inserted commitments, computeRoot() does not
fail (the embedding is a total function): it returns the empty-tree root
obtained by TREE_DEPTH = 20 repeated applications of the two-input hash
starting from the zero element, hashing the running value with zero at each
step. -/
theorem computeRoot_empty (H : Nat → Nat → Nat) :
    computeRoot H [] = (fun x => H x 0)^[TREE_DEPTH] 0 := by
  show zeroChain H TREE_DEPTH 0 = (fun x => H x 0)^[TREE_DEPTH] 0
  exact zeroChain_eq_iterate H TREE_DEPTH 0

/-- Witness for C8 at the concrete hash demoHash. -/
theorem computeRoot_empty_witness :
    computeRoot demoHash [] = (fun x => demoHash x 0)^[TREE_DEPTH] 0 :=
  computeRoot_empty demoHash

/-- C9: a registry with exactly one inserted commitment has
computeRoot() equal to 20 successive applications of hashTwo(current, 0) to
that single leaf — the depth-20 all-zero-padding tree the cast-vote client
reconstructs — and getMerkleProof(0) returns 20 zero siblings and 20 zero
path-index bits. -/
theorem singleton_registry_tree (H : Nat → Nat → Nat) (leaf : Nat) :
    computeRoot H [leaf] = (fun c => H c 0)^[TREE_DEPTH] leaf ∧
    getMerkleProof H [leaf] 0 =
      Except.ok ⟨computeRoot H [leaf], leaf, List.replicate TREE_DEPTH 0,
        List.replicate TREE_DEPTH 0⟩ :=
  ⟨rfl, rfl⟩

/-- Witness for C9 at the concrete hash demoHash and the leaf
demoHash 12345 12345 (the commitment of the demo secret 12345). -/
theorem singleton_registry_tree_witness :
    computeRoot demoHash [demoHash 12345 12345]
      = (fun c => demoHash c 0)^[TREE_DEPTH] (demoHash 12345 12345) :=
  (singleton_registry_tree demoHash (demoHash 12345 12345)).1

/-- C2: the claim fails on the frontend code path.  getNullifierPda in
solanaService.ts derives the nullifier record address from the seed list
["nullifier", nullifierBytes] with no proposal component, so inside
buildCastVoteInstruction two distinct proposal ids (here 1 and 2) with the
same nullifier produce the identical seed list, hence the identical address —
while the CLI's derivation (cast-vote.ts) does include the proposal PDA and
distinguishes the two. -/
theorem frontend_nullifier_seeds_ignore_proposal :
    buildCastVoteNullifierSeeds 1 (List.replicate 32 0) =
      buildCastVoteNullifierSeeds 2 (List.replicate 32 0) ∧
    cliNullifierSeeds (List.replicate 32 1) (List.replicate 32 0) ≠
      cliNullifierSeeds (List.replicate 32 2) (List.replicate 32 0) :=
  ⟨rfl, by decide⟩

set_option maxRecDepth 100000 in
/-- C3: the claim fails: the demo proof service's poseidonHash is, by its own
comment, a simulation, and cannot agree with the registry's hashTwo or the
voter service's poseidonHash on all inputs.  First, it collides on the
hex-concatenation boundary: inputs (0x12, 0x3) and (0x1, 0x23) both hash the
string "123".  Second, at the failing input below (both arguments are valid
reduced field elements) its output is at least the BN254 scalar modulus,
while the real Poseidon wrappers always return canonically reduced field
elements strictly below that modulus. -/
theorem poseidonHashSim_breaks_hash_contract :
    poseidonHashSim 18 3 = poseidonHashSim 1 35 ∧
    bn254r ≤ poseidonHashSim 4439448776366754704
      10284384503848778782257791122200402935176298509356834973972149533904059379801 ∧
    4439448776366754704 < bn254r ∧
    10284384503848778782257791122200402935176298509356834973972149533904059379801
      < bn254r :=
  ⟨rfl, by decide, by decide, by decide⟩

/-- C4: the claim fails: on identical inputs (proposal id 1, all-zero 32-byte
nullifier, vote 1, empty proof bytes) the CLI's serializeCastVote and the
frontend's buildCastVoteInstruction produce different instruction data — the
discriminators differ (0x14d40fbd45b44597, which is
sha256("global:cast_vote")[0..8], versus 0x152d93a5ef3f9b7f), the field
orders differ, and the frontend omits the u32 length framing of the proof
bytes (45 bytes versus 49 bytes here). -/
theorem cast_vote_serializers_disagree :
    serializeCastVote (List.replicate 32 0) 1 [] ≠
      buildCastVoteInstructionData 1 1 (List.replicate 32 0) [] ∧
    (serializeCastVote (List.replicate 32 0) 1 []).length = 45 ∧
    (buildCastVoteInstructionData 1 1 (List.replicate 32 0) []).length = 49 :=
  ⟨by decide, by decide, by decide⟩

/-- C5: the claim fails: secretToField reduces modulo 2^254, which exceeds
the BN254 scalar modulus, so for the 32-character string consisting of the
character U+00FF (code unit 255) repeated, the returned value is 2^254 - 1,
which is not strictly less than the modulus. -/
theorem secretToField_exceeds_modulus :
    bn254r ≤ secretToField (List.replicate 32 255) ∧
    secretToField (List.replicate 32 255) = 2 ^ 254 - 1 ∧
    bn254r < 2 ^ 254 :=
  ⟨by decide, by decide, by decide⟩
